import Mathlib

/-!
# Testing-Framework: the `MathTests` example

A shallow embedding of `example/MathTests/math-test-example.cpp`:

* the three helper functions under test (`factorial`, `isPrime`, `countPrimes`),
  translated from the C++ source, with `int` read as a 32-bit two's-complement
  integer carried in `Int`;
* the part of the imported module `test` that `main` calls (`assert::equals`,
  `assert::greaterThan`, `assert::lessThan_equals`, `test::suite`), whose source
  is not part of the example and is therefore modelled from the specification;
* the two suites declared in `main`.
-/

/-! ## Machine integers -/

/-- Smallest value of the C++ type `int` (32 bits, two's complement). -/
def INT_MIN : Int := -2147483648

/-- Largest value of the C++ type `int`. -/
def INT_MAX : Int := 2147483647

/-- Reduction of a mathematical integer to the 32-bit signed range
`[-2^31, 2^31 - 1]`, i.e. the value modulo `2^32` read as two's complement. -/
def wrap32 (x : Int) : Int := (x + 2147483648) % 4294967296 - 2147483648

/-! ## The helper functions of the source -/

/-- Source lines 4-10, `int factorial(int number)`.
The product is the only operation that can leave the `int` range, so it is the
one reduced by `wrap32`; `number - 1` is evaluated only for `number > 1`. -/
def factorial (number : Int) : Int :=
  if number ≤ 1 then 1
  else wrap32 (number * factorial (number - 1))
termination_by number.toNat
decreasing_by omega

/-- The `for (int i = 2; i < number; i++)` loop of `isPrime` (source lines 17-19),
entered with the current value of the counter `i`. `Int.tmod` is the truncating
remainder of C++. The increment is evaluated only when `i < number`, so it
stays inside the `int` range whenever `number` does. -/
def isPrime.loop (number i : Int) : Bool :=
  if i < number then
    if Int.tmod number i = 0 then false
    else isPrime.loop number (i + 1)
  else true
termination_by (number - i).toNat
decreasing_by omega

/-- Source lines 12-22, `bool isPrime(int number)`. -/
def isPrime (number : Int) : Bool :=
  if number ≤ 1 then false
  else isPrime.loop number 2

/-- The `for (int i = 1; i < end; i++)` loop of `countPrimes` (source lines
28-30), entered with the current counter `i` and the running `count`. -/
def countPrimes.loop (end_ i count : Int) : Int :=
  if i < end_ then
    countPrimes.loop end_ (i + 1) (if isPrime i then count + 1 else count)
  else count
termination_by (end_ - i).toNat
decreasing_by omega

/-- Source lines 24-33, `int countPrimes(int end)`. -/
def countPrimes (end_ : Int) : Int :=
  countPrimes.loop end_ 1 0

/-! ## The loops once more, with what they evaluate written down

The two loops of the source again, returning not their result but the list of
the divisors and of the counter values that an execution goes through. -/

/-- The divisors `i` of every remainder `number % i` that the loop of `isPrime`
(source lines 17-19) evaluates when entered with counter `i`, in order of
evaluation: the body runs while `i < number` and stops after the first
remainder that is zero. -/
def isPrime.loopDivisors (number i : Int) : List Int :=
  if i < number then
    if Int.tmod number i = 0 then [i]
    else i :: isPrime.loopDivisors number (i + 1)
  else []
termination_by (number - i).toNat
decreasing_by omega

/-- The divisors of every remainder evaluated by a call `isPrime(number)`; none
when the guard `number <= 1` returns at once. -/
def isPrime.divisors (number : Int) : List Int :=
  if number ≤ 1 then []
  else isPrime.loopDivisors number 2

/-- The values held by the counter `i` of the loop of `isPrime`: its current
value, then the result of every `i++` that is executed. -/
def isPrime.loopCounters (number i : Int) : List Int :=
  i ::
    (if i < number then
      if Int.tmod number i = 0 then []
      else isPrime.loopCounters number (i + 1)
    else [])
termination_by (number - i).toNat
decreasing_by omega

/-- The values held by the counter of the loop in a call `isPrime(number)`; none
when the guard `number <= 1` returns before the loop. -/
def isPrime.counters (number : Int) : List Int :=
  if number ≤ 1 then []
  else isPrime.loopCounters number 2

/-- The values held by the counter `i` of the loop of `countPrimes` (source
lines 28-30): its current value, then the result of every `i++`. -/
def countPrimes.loopCounters (end_ i : Int) : List Int :=
  i :: (if i < end_ then countPrimes.loopCounters end_ (i + 1) else [])
termination_by (end_ - i).toNat
decreasing_by omega

/-- The values held by the counter of the loop in a call `countPrimes(end)`. -/
def countPrimes.counters (end_ : Int) : List Int :=
  countPrimes.loopCounters end_ 1

/-! ## Step-bounded evaluators

The same three functions once more, as evaluators that spend one unit of fuel
per recursive call or loop iteration and answer `none` when the fuel is used up.
They make termination a statement that can be proved: some amount of fuel is
enough, and the answer is then the one of the functions above. -/

/-- Fuel-bounded evaluation of `factorial`: one unit per call. -/
def factorialFuel : Nat → Int → Option Int
  | 0, _ => none
  | fuel + 1, number =>
    if number ≤ 1 then some 1
    else (factorialFuel fuel (number - 1)).map fun r => wrap32 (number * r)

/-- Fuel-bounded evaluation of the loop of `isPrime`: one unit per test of
the loop condition. -/
def isPrimeLoopFuel (number : Int) : Nat → Int → Option Bool
  | 0, _ => none
  | fuel + 1, i =>
    if i < number then
      if Int.tmod number i = 0 then some false
      else isPrimeLoopFuel number fuel (i + 1)
    else some true

/-- Fuel-bounded evaluation of `isPrime`. -/
def isPrimeFuel (fuel : Nat) (number : Int) : Option Bool :=
  if number ≤ 1 then some false
  else isPrimeLoopFuel number fuel 2

/-- Fuel-bounded evaluation of the loop of `countPrimes`: one unit per test of
the loop condition; the call of `isPrime` in the body runs on the fuel left. -/
def countPrimesLoopFuel (end_ : Int) : Nat → Int → Int → Option Int
  | 0, _, _ => none
  | fuel + 1, i, count =>
    if i < end_ then
      match isPrimeFuel fuel i with
      | none => none
      | some b => countPrimesLoopFuel end_ fuel (i + 1) (if b then count + 1 else count)
    else some count

/-- Fuel-bounded evaluation of `countPrimes`. -/
def countPrimesFuel (fuel : Nat) (end_ : Int) : Option Int :=
  countPrimesLoopFuel end_ fuel 1 0

/-! ## Reference computations used in the proofs

These are not part of the program. They are the mathematical side of the
comparison: a square-root-bounded primality test on `Nat`, proved below to agree
with `Nat.Prime`, which the kernel can evaluate on ten thousand numbers. -/

/-- Trial division of `n` by `d, d + 1, ...` while `d * d ≤ n`. -/
def trialDivision (n : Nat) : Nat → Nat → Bool
  | 0, _ => true
  | fuel + 1, d =>
    if n < d * d then true
    else if n % d = 0 then false
    else trialDivision n fuel (d + 1)

/-- Primality by trial division up to the square root. -/
def primeBySqrt (n : Nat) : Bool :=
  decide (2 ≤ n) && trialDivision n n 2

/-- Number of `k` with `lo ≤ k < lo + len` that pass `primeBySqrt`. -/
def countBySqrt : Nat → Nat → Nat
  | _, 0 => 0
  | lo, len + 1 => (if primeBySqrt lo then 1 else 0) + countBySqrt (lo + 1) len

/-- Number of primes `p` with `1 ≤ p < n`, the mathematical prime-counting
function with an exclusive upper bound. -/
def primesBelow (n : Nat) : Nat :=
  ((Finset.Ico 1 n).filter Nat.Prime).card

/-! ## The imported module `test` -/

/-- Modelled from the spec: the Outcome record of section 3, which is the
`test::result` returned by every assertion and every test case. The source of
module `test` is missing; the fields are the three the specification lists. -/
structure Outcome where
  /-- Truth value of the checked predicate. -/
  passed : Bool
  /-- Description of what was checked. -/
  message : String
  /-- Short name supplied by the caller, if any. -/
  label : Option String
deriving DecidableEq, Repr

/-- Modelled from the spec: `test::result`, the return type of the test-case
closures of `main`, is the Outcome record. -/
abbrev test.result : Type := Outcome

/-- Modelled from the spec: message synthesis of section 4.1 for the missing
assertion engine. Without a label the message names the predicate and both
stringified operands, in the shape of the specification's example
`expected 120 to equal 119`; with a label the message is the caller's text. -/
def assert.outcome (holds : Bool) (predicate actual bound : String)
    (label : Option String) : Outcome :=
  { passed := holds
    message :=
      match label with
      | some text => text
      | none => "expected " ++ actual ++ " " ++ predicate ++ " " ++ bound
    label := label }

/-- Modelled from the spec: `assert::equals(actual, expected, label?)` of the
missing module `test`; passes iff `actual == expected`. -/
def assert.equals {α : Type} [DecidableEq α] [ToString α]
    (actual expected : α) (label : Option String) : Outcome :=
  assert.outcome (decide (actual = expected)) "to equal"
    (toString actual) (toString expected) label

/-- Modelled from the spec: `assert::greaterThan(actual, bound, label?)` of the
missing module `test`; passes iff `actual > bound`. -/
def assert.greaterThan {α : Type} [LT α] [∀ a b : α, Decidable (a < b)] [ToString α]
    (actual bound : α) (label : Option String) : Outcome :=
  assert.outcome (decide (actual > bound)) "to be greater than"
    (toString actual) (toString bound) label

/-- Modelled from the spec: `assert::lessThan_equals(actual, bound, label?)` of
the missing module `test` (the specification's `lessThanOrEquals`); passes iff
`actual <= bound`. -/
def assert.lessThan_equals {α : Type} [LE α] [∀ a b : α, Decidable (a ≤ b)] [ToString α]
    (actual bound : α) (label : Option String) : Outcome :=
  assert.outcome (decide (actual ≤ bound)) "to be less than or equal to"
    (toString actual) (toString bound) label

/-- Modelled from the spec: an ExecutionFault of section 7, an abnormal runtime
fault raised by the body of a test case (for example a division fault). -/
structure ExecutionFault where
  /-- What went wrong. -/
  description : String
deriving DecidableEq, Repr

/-- Modelled from the spec: a DeclarationError of section 7. The only malformed
declaration the specification requires to be rejected is the empty suite name. -/
inductive DeclarationError where
  | emptyName
deriving DecidableEq, Repr

/-- Modelled from the spec: a TestCase of section 3, a deferred zero-argument
computation that yields one Outcome when invoked, or raises an execution
fault. -/
abbrev TestCase : Type := Unit → Except ExecutionFault Outcome

/-- Modelled from the spec: the SuiteReport of section 3. -/
structure SuiteReport where
  /-- Name of the suite. -/
  suiteName : String
  /-- Number of cases run. -/
  total : Nat
  /-- Number of cases whose outcome passed. -/
  passedCount : Nat
  /-- The failing outcomes with the index of their case. -/
  failedOutcomes : List (Nat × Outcome)
deriving DecidableEq, Repr

/-- Modelled from the spec: the state of the Suite Runner of section 4.2 while
it iterates the cases: the outcome recorded for every case invoked so far, in
invocation order, next to the report under construction. -/
structure SuiteRun where
  /-- One record (case index, outcome) per invocation, oldest first. -/
  records : List (Nat × Outcome)
  /-- The report built incrementally. -/
  report : SuiteReport
deriving DecidableEq, Repr

/-- Modelled from the spec: invoking one case at the per-case boundary of the
Suite Runner. A fault is caught and converted into a failing Outcome whose
message identifies it as an execution fault. -/
def test.invoke (c : TestCase) : Outcome :=
  match c () with
  | Except.ok o => o
  | Except.error fault =>
    { passed := false
      message := "execution fault: " ++ fault.description
      label := none }

/-- Modelled from the spec: recording the outcome of case `index`: the record is
appended, `total` grows by one, and either `passedCount` grows by one or the
outcome joins `failedOutcomes` with its index. -/
def SuiteRun.record (s : SuiteRun) (index : Nat) (o : Outcome) : SuiteRun :=
  { records := s.records ++ [(index, o)]
    report :=
      { suiteName := s.report.suiteName
        total := s.report.total + 1
        passedCount := if o.passed then s.report.passedCount + 1 else s.report.passedCount
        failedOutcomes :=
          if o.passed then s.report.failedOutcomes
          else s.report.failedOutcomes ++ [(index, o)] } }

/-- Modelled from the spec: the case loop of the Suite Runner. Each pending case
is invoked once, its outcome is recorded, and the loop goes on to the next case
whatever the outcome was. -/
def test.runCases : List TestCase → Nat → SuiteRun → SuiteRun
  | [], _, s => s
  | c :: rest, index, s => test.runCases rest (index + 1) (s.record index (test.invoke c))

/-- Modelled from the spec: running a well-formed suite from the empty report. -/
def test.run (name : String) (cases : List TestCase) : SuiteRun :=
  test.runCases cases 0
    { records := []
      report := { suiteName := name, total := 0, passedCount := 0, failedOutcomes := [] } }

/-- Modelled from the spec: `test::suite(name, [description,] cases...)` of the
missing module `test`. A declaration with an empty name is rejected before any
case runs; otherwise the cases are run in order. The description is reporting
text only. -/
def test.suite (name : String) (_description : Option String) (cases : List TestCase) :
    Except DeclarationError SuiteRun :=
  if name = "" then Except.error DeclarationError.emptyName
  else Except.ok (test.run name cases)

/-! ## The suites declared in `main` -/

/-- Source lines 39-45: the case labelled `0! > 0`. -/
def main.factorialCase0 : TestCase :=
  fun _ => Except.ok (assert.greaterThan (factorial 0) 0 (some "0! > 0"))

/-- Source lines 46-52: the case labelled `1! = 1`. -/
def main.factorialCase1 : TestCase :=
  fun _ => Except.ok (assert.equals (factorial 1) 1 (some "1! = 1"))

/-- Source lines 53-59: the case labelled `5! = 120`. -/
def main.factorialCase2 : TestCase :=
  fun _ => Except.ok (assert.equals (factorial 5) 120 (some "5! = 120"))

/-- Source lines 37-60: the call `test::suite("Factorial", ...)`. -/
def main.factorialSuite : Except DeclarationError SuiteRun :=
  test.suite "Factorial" none
    [main.factorialCase0, main.factorialCase1, main.factorialCase2]

/-- Source lines 65-70: the only case of suite `Prime Counting`. -/
def main.primeCountingCase : TestCase :=
  fun _ => Except.ok (assert.lessThan_equals (countPrimes 10000) 1229 none)

/-- Source lines 62-71: the call `test::suite("Prime Counting", ...)`. -/
def main.primeCountingSuite : Except DeclarationError SuiteRun :=
  test.suite "Prime Counting" (some "Counting how many prime numbers are in ranges≤.")
    [main.primeCountingCase]

/-- The failure-path case of the specification: `equals(factorial(5), 119)`
without a label. -/
def failurePathCase : TestCase :=
  fun _ => Except.ok (assert.equals (factorial 5) 119 none)

/-! ## Facts about `wrap32` and `factorial` -/

theorem wrap32_of_inRange (x : Int) (hlo : INT_MIN ≤ x) (hhi : x ≤ INT_MAX) :
    wrap32 x = x := by
  unfold INT_MIN at hlo
  unfold INT_MAX at hhi
  unfold wrap32
  omega

theorem factorial_of_le_one (number : Int) (h : number ≤ 1) : factorial number = 1 := by
  rw [factorial, if_pos h]

theorem factorial_of_one_lt (number : Int) (h : 1 < number) :
    factorial number = wrap32 (number * factorial (number - 1)) := by
  rw [factorial, if_neg (not_le.mpr h)]

theorem factorial_natCast_succ (n : Nat) (h : 1 ≤ n) :
    factorial ((n + 1 : Nat) : Int) = wrap32 (((n + 1 : Nat) : Int) * factorial (n : Int)) := by
  rw [factorial_of_one_lt _ (by omega)]
  congr 2
  push_cast
  ring_nf

theorem factorial_natCast_of_le_twelve (n : Nat) (h : n ≤ 12) :
    factorial (n : Int) = (n.factorial : Int) := by
  induction n with
  | zero => simp [factorial_of_le_one]
  | succ k ih =>
    rcases Nat.eq_zero_or_pos k with hk | hk
    · subst hk
      simp [factorial_of_le_one]
    · rw [factorial_natCast_succ k hk, ih (by omega), Nat.factorial_succ]
      have hb : (k + 1).factorial ≤ Nat.factorial 12 := Nat.factorial_le h
      have hv : Nat.factorial 12 = 479001600 := by decide
      rw [Nat.factorial_succ, hv] at hb
      apply wrap32_of_inRange
      · unfold INT_MIN
        have : (0 : Int) ≤ (((k + 1 : Nat) : Int) * (k.factorial : Int)) := by positivity
        omega
      · unfold INT_MAX
        have : (((k + 1) * k.factorial : Nat) : Int) ≤ 479001600 := by exact_mod_cast hb
        push_cast at this ⊢
        omega

theorem factorial_five : factorial 5 = 120 := by
  have h := factorial_natCast_of_le_twelve 5 (by decide)
  simpa [Nat.factorial] using h

theorem factorial_twelve : factorial 12 = 479001600 := by
  have h := factorial_natCast_of_le_twelve 12 (by decide)
  simpa [Nat.factorial] using h

theorem factorial_thirteen : factorial 13 = 1932053504 := by
  rw [factorial_of_one_lt 13 (by decide)]
  norm_num [factorial_twelve, wrap32]

/-! ## C1: the suite `Factorial` of `main` -/

/-- C1: the suite `Factorial` declared in `main` has three cases and all of them
pass: `factorial 0 > 0`, `factorial 1 = 1` and `factorial 5 = 120` hold for the
source's `factorial`, the run records three outcomes, and its report is
`total = 3`, `passedCount = 3`, `failedOutcomes = []`. -/
theorem main_factorialSuite_all_pass :
    (factorial 0 > 0 ∧ factorial 1 = 1 ∧ factorial 5 = 120) ∧
    ∃ run : SuiteRun, main.factorialSuite = Except.ok run ∧
      run.records.length = 3 ∧
      (∀ r ∈ run.records, r.2.passed = true) ∧
      run.report =
        { suiteName := "Factorial", total := 3, passedCount := 3, failedOutcomes := [] } := by
  have h0 : factorial 0 = 1 := factorial_of_le_one 0 (by decide)
  have h1 : factorial 1 = 1 := factorial_of_le_one 1 (by decide)
  have h5 : factorial 5 = 120 := factorial_five
  refine ⟨⟨by rw [h0]; decide, h1, h5⟩, ?_⟩
  refine ⟨test.run "Factorial"
    [main.factorialCase0, main.factorialCase1, main.factorialCase2], ?_, ?_, ?_, ?_⟩
  · unfold main.factorialSuite test.suite
    rw [if_neg (by decide)]
  · rfl
  · simp [test.run, test.runCases, SuiteRun.record, test.invoke, main.factorialCase0,
      main.factorialCase1, main.factorialCase2, assert.greaterThan, assert.equals,
      assert.outcome, h0, h1, h5]
  · simp [test.run, test.runCases, SuiteRun.record, test.invoke, main.factorialCase0,
      main.factorialCase1, main.factorialCase2, assert.greaterThan, assert.equals,
      assert.outcome, h0, h1, h5]

/-! ## C3: `factorial` against the mathematical factorial -/

/-- C3, as stated, fails: `13` is a non-negative `int`, `13! = 6227020800` does
not fit 32 bits, and `factorial 13` is `1932053504`. -/
theorem factorial_thirteen_ne_factorial :
    (0 : Int) ≤ 13 ∧ (13 : Int) ≤ INT_MAX ∧ factorial 13 = 1932053504 ∧
    factorial 13 ≠ ((Nat.factorial 13 : Nat) : Int) := by
  refine ⟨by decide, by decide, factorial_thirteen, ?_⟩
  rw [factorial_thirteen]
  have hv : Nat.factorial 13 = 6227020800 := by decide
  rw [hv]
  decide

/-- C3, amended: for every `int` `n` with `0 ≤ n ≤ 12`, `factorial n` is the
mathematical factorial `n!`. -/
theorem factorial_eq_factorial_of_le_twelve (n : Int) (h0 : 0 ≤ n) (h12 : n ≤ 12) :
    factorial n = ((Nat.factorial n.toNat : Nat) : Int) := by
  have h := factorial_natCast_of_le_twelve n.toNat (by omega)
  rwa [Int.toNat_of_nonneg h0] at h

/-- Witness of the amended C3 at `n = 5`, where the value is `5! = 120`. -/
theorem factorial_eq_factorial_of_le_twelve_witness :
    (0 : Int) ≤ 5 ∧ (5 : Int) ≤ 12 ∧
    factorial 5 = ((Nat.factorial (5 : Int).toNat : Nat) : Int) :=
  ⟨by decide, by decide, factorial_eq_factorial_of_le_twelve 5 (by decide) (by decide)⟩

/-! ## Facts about `isPrime` -/

theorem isPrime_loop_of_ge (number i : Int) (h : ¬ i < number) :
    isPrime.loop number i = true := by
  rw [isPrime.loop, if_neg h]

theorem isPrime_loop_of_dvd (number i : Int) (h : i < number) (hd : Int.tmod number i = 0) :
    isPrime.loop number i = false := by
  rw [isPrime.loop, if_pos h, if_pos hd]

theorem isPrime_loop_of_not_dvd (number i : Int) (h : i < number)
    (hd : ¬ Int.tmod number i = 0) :
    isPrime.loop number i = isPrime.loop number (i + 1) := by
  rw [isPrime.loop, if_pos h, if_neg hd]

theorem isPrime_loop_eq_true_iff (number : Int) (n : Nat) :
    ∀ i : Int, (number - i).toNat = n →
      (isPrime.loop number i = true ↔ ∀ d : Int, i ≤ d → d < number → ¬ d ∣ number) := by
  induction n with
  | zero =>
    intro i hn
    have hge : ¬ i < number := by omega
    rw [isPrime_loop_of_ge number i hge]
    simp only [true_iff]
    intro d h1 h2
    omega
  | succ k ih =>
    intro i hn
    have hlt : i < number := by omega
    by_cases hd : Int.tmod number i = 0
    · rw [isPrime_loop_of_dvd number i hlt hd]
      simp only [Bool.false_eq_true, false_iff]
      intro hall
      exact hall i (le_refl i) hlt (Int.dvd_of_tmod_eq_zero hd)
    · rw [isPrime_loop_of_not_dvd number i hlt hd, ih (i + 1) (by omega)]
      constructor
      · intro hall d h1 h2
        rcases eq_or_lt_of_le h1 with heq | hlt'
        · subst heq
          intro hdvd
          exact hd (Int.tmod_eq_zero_of_dvd hdvd)
        · exact hall d (by omega) h2
      · intro hall d h1 h2
        exact hall d (by omega) h2

theorem isPrime_eq_true_iff (number : Int) :
    isPrime number = true ↔
      2 ≤ number ∧ ∀ d : Int, 2 ≤ d → d < number → ¬ d ∣ number := by
  unfold isPrime
  by_cases h : number ≤ 1
  · rw [if_pos h]
    simp only [Bool.false_eq_true, false_iff]
    intro hc
    omega
  · rw [if_neg h, isPrime_loop_eq_true_iff number (number - 2).toNat 2 rfl]
    constructor
    · intro hall
      exact ⟨by omega, hall⟩
    · intro hall
      exact hall.2

theorem isPrime_natCast_iff (n : Nat) : isPrime (n : Int) = true ↔ Nat.Prime n := by
  rw [isPrime_eq_true_iff, Nat.prime_def_lt']
  constructor
  · rintro ⟨h2, hall⟩
    refine ⟨by omega, ?_⟩
    intro m hm1 hm2 hdvd
    exact hall (m : Int) (by omega) (by omega) (Int.natCast_dvd_natCast.mpr hdvd)
  · rintro ⟨h2, hall⟩
    refine ⟨by omega, ?_⟩
    intro d hd1 hd2 hdvd
    have hd0 : (0 : Int) ≤ d := by omega
    obtain ⟨m, rfl⟩ := Int.eq_ofNat_of_zero_le hd0
    exact hall m (by omega) (by omega) (Int.natCast_dvd_natCast.mp hdvd)

theorem isPrime_of_le_one (number : Int) (h : number ≤ 1) : isPrime number = false := by
  unfold isPrime
  rw [if_pos h]

/-! ## C4: `isPrime` against the definition of primality -/

/-- C4: for every integer `number`, negative, zero or positive (so for every
`int`), `isPrime number` is `true` exactly when `number ≥ 2` and no `d` with
`2 ≤ d < number` divides it, which is exactly when `number` is a prime
number. -/
theorem isPrime_iff_prime (number : Int) :
    (isPrime number = true ↔
      2 ≤ number ∧ ∀ d : Int, 2 ≤ d → d < number → ¬ d ∣ number) ∧
    (isPrime number = true ↔ 0 ≤ number ∧ Nat.Prime number.toNat) := by
  refine ⟨isPrime_eq_true_iff number, ?_⟩
  by_cases h : 0 ≤ number
  · obtain ⟨n, rfl⟩ := Int.eq_ofNat_of_zero_le h
    rw [isPrime_natCast_iff]
    simp
  · rw [isPrime_of_le_one number (by omega)]
    simp [h]

/-! ## The reference primality test agrees with `Nat.Prime` -/

theorem trialDivision_eq_true_iff (n fuel : Nat) :
    ∀ d : Nat, trialDivision n fuel d = true ↔
      ∀ k : Nat, d ≤ k → k < d + fuel → k * k ≤ n → ¬ k ∣ n := by
  induction fuel with
  | zero =>
    intro d
    simp only [trialDivision, true_iff]
    intro k h1 h2
    omega
  | succ f ih =>
    intro d
    unfold trialDivision
    by_cases hsq : n < d * d
    · rw [if_pos hsq]
      simp only [true_iff]
      intro k h1 _ h3
      have : d * d ≤ k * k := Nat.mul_le_mul h1 h1
      omega
    · rw [if_neg hsq]
      by_cases hmod : n % d = 0
      · rw [if_pos hmod]
        simp only [Bool.false_eq_true, false_iff]
        intro hall
        exact hall d (le_refl d) (by omega) (by omega) (Nat.dvd_of_mod_eq_zero hmod)
      · rw [if_neg hmod, ih (d + 1)]
        constructor
        · intro hall k h1 h2 h3
          rcases Nat.eq_or_lt_of_le h1 with heq | hlt
          · subst heq
            intro hdvd
            exact hmod (Nat.mod_eq_zero_of_dvd hdvd)
          · exact hall k (by omega) (by omega) h3
        · intro hall k h1 h2 h3
          exact hall k (by omega) (by omega) h3

theorem primeBySqrt_iff (n : Nat) : primeBySqrt n = true ↔ Nat.Prime n := by
  unfold primeBySqrt
  rw [Bool.and_eq_true, decide_eq_true_iff, trialDivision_eq_true_iff, Nat.prime_def_le_sqrt]
  constructor
  · rintro ⟨h2, hall⟩
    refine ⟨h2, fun m hm1 hm2 => ?_⟩
    have hmm : m * m ≤ n := Nat.le_sqrt.mp hm2
    have hmn : m ≤ n := le_trans (Nat.le_mul_self m) hmm
    exact hall m hm1 (by omega) hmm
  · rintro ⟨h2, hall⟩
    exact ⟨h2, fun k hk1 _ hk3 => hall k hk1 (Nat.le_sqrt.mpr hk3)⟩

theorem isPrime_natCast_eq_primeBySqrt (n : Nat) : isPrime (n : Int) = primeBySqrt n := by
  rw [Bool.eq_iff_iff, isPrime_natCast_iff, primeBySqrt_iff]

theorem countBySqrt_eq_card (len : Nat) :
    ∀ lo : Nat, countBySqrt lo len = ((Finset.Ico lo (lo + len)).filter Nat.Prime).card := by
  induction len with
  | zero =>
    intro lo
    simp [countBySqrt]
  | succ k ih =>
    intro lo
    have hlt : lo < lo + (k + 1) := by omega
    have hsplit : Finset.Ico lo (lo + (k + 1)) = insert lo (Finset.Ico (lo + 1) (lo + 1 + k)) := by
      rw [show lo + 1 + k = lo + (k + 1) by omega]
      exact (Nat.Ico_insert_succ_left hlt).symm
    rw [countBySqrt, ih (lo + 1), hsplit, Finset.filter_insert]
    by_cases hp : Nat.Prime lo
    · rw [if_pos hp, if_pos ((primeBySqrt_iff lo).mpr hp),
        Finset.card_insert_of_not_mem (by simp)]
      omega
    · rw [if_neg hp, if_neg (fun h => hp ((primeBySqrt_iff lo).mp h))]
      omega

/-! ## Facts about `countPrimes` -/

theorem countPrimes_loop_of_ge (end_ i count : Int) (h : ¬ i < end_) :
    countPrimes.loop end_ i count = count := by
  rw [countPrimes.loop, if_neg h]

theorem countPrimes_loop_of_lt (end_ i count : Int) (h : i < end_) :
    countPrimes.loop end_ i count =
      countPrimes.loop end_ (i + 1) (if isPrime i then count + 1 else count) := by
  rw [countPrimes.loop, if_pos h]

theorem countPrimes_loop_eq_countBySqrt (end_ : Int) (len : Nat) :
    ∀ (i : Nat) (count : Int), end_ = (i : Int) + (len : Int) →
      countPrimes.loop end_ (i : Int) count = count + (countBySqrt i len : Int) := by
  induction len with
  | zero =>
    intro i count hend
    rw [countPrimes_loop_of_ge end_ i count (by omega)]
    simp [countBySqrt]
  | succ k ih =>
    intro i count hend
    rw [countPrimes_loop_of_lt end_ i count (by omega)]
    have hnext := ih (i + 1) (if isPrime (i : Int) then count + 1 else count)
      (by push_cast at hend ⊢; omega)
    rw [Nat.cast_add, Nat.cast_one] at hnext
    rw [hnext, countBySqrt, isPrime_natCast_eq_primeBySqrt]
    by_cases hp : primeBySqrt i = true
    · simp only [hp, if_true]
      push_cast
      omega
    · simp only [hp, if_false, Bool.false_eq_true]
      push_cast
      omega

theorem countPrimes_eq_countBySqrt (end_ : Int) :
    countPrimes end_ = (countBySqrt 1 (end_.toNat - 1) : Int) := by
  unfold countPrimes
  by_cases h : 1 ≤ end_
  · have hloop := countPrimes_loop_eq_countBySqrt end_ (end_.toNat - 1) 1 0
      (by push_cast; omega)
    rw [Nat.cast_one] at hloop
    rw [hloop, zero_add]
  · rw [countPrimes_loop_of_ge end_ 1 0 (by omega)]
    have hz : end_.toNat - 1 = 0 := by omega
    rw [hz]
    simp [countBySqrt]

theorem countPrimes_eq_primesBelow (end_ : Int) :
    countPrimes end_ = (primesBelow end_.toNat : Int) := by
  rw [countPrimes_eq_countBySqrt, countBySqrt_eq_card]
  unfold primesBelow
  by_cases h : 1 ≤ end_.toNat
  · rw [show 1 + (end_.toNat - 1) = end_.toNat by omega]
  · have hz : end_.toNat = 0 := by omega
    rw [hz]
    simp

theorem countBySqrt_one_9999 : countBySqrt 1 9999 = 1229 := by decide!

theorem countPrimes_10000 : countPrimes 10000 = 1229 := by
  rw [countPrimes_eq_countBySqrt]
  have h : (10000 : Int).toNat - 1 = 9999 := by decide
  rw [h, countBySqrt_one_9999]
  rfl

/-! ## C2: the suite `Prime Counting` of `main` -/

/-- C2: `countPrimes 10000` evaluates to exactly `1229`, which is the number of
primes below `10000`, so the single case of suite `Prime Counting`, asserting
`countPrimes(10000) <= 1229`, yields an outcome with `passed = true`, and the
suite reports one case, passed. -/
theorem countPrimes_tenThousand :
    countPrimes 10000 = 1229 ∧
    ((Finset.Ico 1 10000).filter Nat.Prime).card = 1229 ∧
    (test.invoke main.primeCountingCase).passed = true ∧
    ∃ run : SuiteRun, main.primeCountingSuite = Except.ok run ∧
      run.report =
        { suiteName := "Prime Counting", total := 1, passedCount := 1,
          failedOutcomes := [] } := by
  have hcount : countPrimes 10000 = 1229 := countPrimes_10000
  refine ⟨hcount, ?_, ?_, ?_⟩
  · have h := countBySqrt_eq_card 9999 1
    rw [countBySqrt_one_9999] at h
    exact h.symm
  · simp [test.invoke, main.primeCountingCase, assert.lessThan_equals, assert.outcome, hcount]
  · refine ⟨test.run "Prime Counting" [main.primeCountingCase], ?_, ?_⟩
    · unfold main.primeCountingSuite test.suite
      rw [if_neg (by decide)]
    · simp [test.run, test.runCases, SuiteRun.record, test.invoke, main.primeCountingCase,
        assert.lessThan_equals, assert.outcome, hcount]

/-! ## C5: `countPrimes` against the prime-counting function -/

/-- C5: for every integer `end_` (so for every `int`), `countPrimes end_` is the
number of primes `p` with `1 ≤ p < end_`; the bound itself is not counted, and
the result is `0` when `end_ ≤ 2`. -/
theorem countPrimes_eq_card_primes (end_ : Int) :
    countPrimes end_ = (((Finset.Ico 1 end_.toNat).filter Nat.Prime).card : Int) ∧
    countPrimes end_ =
      (((Finset.Ico (1 : Int) end_).filter fun p => Nat.Prime p.toNat).card : Int) ∧
    (end_ ≤ 2 → countPrimes end_ = 0) := by
  have h1 : countPrimes end_ = (((Finset.Ico 1 end_.toNat).filter Nat.Prime).card : Int) :=
    countPrimes_eq_primesBelow end_
  refine ⟨h1, ?_, ?_⟩
  · rw [h1]
    congr 1
    apply Finset.card_bij (fun (k : Nat) _ => (k : Int))
    · intro k hk
      simp only [Finset.mem_filter, Finset.mem_Ico] at hk ⊢
      refine ⟨⟨by omega, by omega⟩, ?_⟩
      simpa using hk.2
    · intro a _ b _ hab
      exact_mod_cast hab
    · intro p hp
      simp only [Finset.mem_filter, Finset.mem_Ico] at hp
      refine ⟨p.toNat, ?_, by omega⟩
      simp only [Finset.mem_filter, Finset.mem_Ico]
      exact ⟨⟨by omega, by omega⟩, hp.2⟩
  · intro hle
    rw [h1]
    have hempty : (Finset.Ico 1 end_.toNat).filter Nat.Prime = ∅ := by
      apply Finset.filter_eq_empty_iff.mpr
      intro k hk hp
      simp only [Finset.mem_Ico] at hk
      have h2 : 2 ≤ k := hp.two_le
      omega
    rw [hempty]
    rfl

/-! ## The step-bounded evaluators reach the values of the total functions -/

theorem factorialFuel_eq_some (fuel : Nat) :
    ∀ number : Int, number.toNat + 1 ≤ fuel →
      factorialFuel fuel number = some (factorial number) := by
  induction fuel with
  | zero =>
    intro number h
    omega
  | succ f ih =>
    intro number h
    unfold factorialFuel
    by_cases hle : number ≤ 1
    · rw [if_pos hle, factorial_of_le_one number hle]
    · rw [if_neg hle, ih (number - 1) (by omega), factorial_of_one_lt number (by omega)]
      rfl

theorem isPrimeLoopFuel_eq_some (number : Int) (fuel : Nat) :
    ∀ i : Int, (number - i).toNat + 1 ≤ fuel →
      isPrimeLoopFuel number fuel i = some (isPrime.loop number i) := by
  induction fuel with
  | zero =>
    intro i h
    omega
  | succ f ih =>
    intro i h
    unfold isPrimeLoopFuel
    by_cases hlt : i < number
    · rw [if_pos hlt]
      by_cases hd : Int.tmod number i = 0
      · rw [if_pos hd, isPrime_loop_of_dvd number i hlt hd]
      · rw [if_neg hd, isPrime_loop_of_not_dvd number i hlt hd, ih (i + 1) (by omega)]
    · rw [if_neg hlt, isPrime_loop_of_ge number i hlt]

theorem isPrimeFuel_eq_some (fuel : Nat) (number : Int) (h : number.toNat ≤ fuel) :
    isPrimeFuel fuel number = some (isPrime number) := by
  unfold isPrimeFuel isPrime
  by_cases hle : number ≤ 1
  · rw [if_pos hle, if_pos hle]
  · rw [if_neg hle, if_neg hle, isPrimeLoopFuel_eq_some number fuel 2 (by omega)]

theorem countPrimesLoopFuel_eq_some (end_ : Int) (fuel : Nat) :
    ∀ i count : Int, (end_ - i).toNat + end_.toNat + 1 ≤ fuel →
      countPrimesLoopFuel end_ fuel i count = some (countPrimes.loop end_ i count) := by
  induction fuel with
  | zero =>
    intro i count h
    omega
  | succ f ih =>
    intro i count h
    unfold countPrimesLoopFuel
    by_cases hlt : i < end_
    · rw [if_pos hlt, isPrimeFuel_eq_some f i (by omega), countPrimes_loop_of_lt end_ i count hlt]
      exact ih (i + 1) _ (by omega)
    · rw [if_neg hlt, countPrimes_loop_of_ge end_ i count hlt]

/-! ## C6: the helpers terminate on every input -/

/-- C6: `factorial`, `isPrime` and `countPrimes` terminate on every integer input
(so on every `int`, negative ones included): the step-bounded evaluators return
a result, the value of the total function, as soon as the fuel reaches a bound
that is linear in the input: `number + 1` calls for `factorial`, `number` loop
tests for `isPrime`, and `2 * end_ + 1` for `countPrimes` with its nested calls
of `isPrime`. -/
theorem helpers_terminate (number end_ : Int) :
    (∀ fuel : Nat, number.toNat + 1 ≤ fuel →
      factorialFuel fuel number = some (factorial number)) ∧
    (∀ fuel : Nat, number.toNat ≤ fuel →
      isPrimeFuel fuel number = some (isPrime number)) ∧
    (∀ fuel : Nat, 2 * end_.toNat + 1 ≤ fuel →
      countPrimesFuel fuel end_ = some (countPrimes end_)) := by
  refine ⟨fun fuel h => factorialFuel_eq_some fuel number h,
    fun fuel h => isPrimeFuel_eq_some fuel number h, fun fuel h => ?_⟩
  unfold countPrimesFuel countPrimes
  exact countPrimesLoopFuel_eq_some end_ fuel 1 0 (by omega)

/-- Witness of C6 at `number = 5`, `end_ = 10` and at the negative input `-3`:
six calls give `5! = 120`, five loop tests decide that `5` is prime, and
twenty-one units of fuel count the four primes below `10`. -/
theorem helpers_terminate_witness :
    factorialFuel 6 5 = some (factorial 5) ∧
    isPrimeFuel 5 5 = some (isPrime 5) ∧
    countPrimesFuel 21 10 = some (countPrimes 10) ∧
    factorialFuel 1 (-3) = some (factorial (-3)) :=
  ⟨(helpers_terminate 5 10).1 6 (by decide), (helpers_terminate 5 10).2.1 5 (by decide),
    (helpers_terminate 5 10).2.2 21 (by decide), (helpers_terminate (-3) 0).1 1 (by decide)⟩

/-! ## C7: `factorial` is positive -/

theorem factorial_ge_one_of_le_twelve (n : Int) (h : n ≤ 12) : 1 ≤ factorial n := by
  by_cases hle : n ≤ 1
  · rw [factorial_of_le_one n hle]
  · have hcast := factorial_natCast_of_le_twelve n.toNat (by omega)
    rw [Int.toNat_of_nonneg (by omega)] at hcast
    rw [hcast]
    have hpos : 0 < n.toNat.factorial := Nat.factorial_pos _
    omega

/-- C7: for every `int` `n ≤ 12`, zero and the negative ones included,
`factorial n ≥ 1`, so `factorial n > 0` and the assertion
`greaterThan(factorial(n), 0)` passes, with or without a label. -/
theorem factorial_pos_of_le_twelve (n : Int) (h : n ≤ 12) :
    1 ≤ factorial n ∧ factorial n > 0 ∧
    ∀ label : Option String, (assert.greaterThan (factorial n) 0 label).passed = true := by
  have h1 : 1 ≤ factorial n := factorial_ge_one_of_le_twelve n h
  have h0 : factorial n > 0 := by omega
  refine ⟨h1, h0, fun label => ?_⟩
  simp [assert.greaterThan, assert.outcome, h0]

/-- Witness of C7 at `n = 0`, the input the test of `main` checks. -/
theorem factorial_pos_of_le_twelve_witness :
    (0 : Int) ≤ 12 ∧ 1 ≤ factorial 0 ∧ factorial 0 > 0 ∧
    ∀ label : Option String, (assert.greaterThan (factorial 0) 0 label).passed = true :=
  ⟨by decide, factorial_pos_of_le_twelve 0 (by decide)⟩

/-! ## C8: the failure path -/

/-- C8: the case asserting `equals(factorial(5), 119)` yields an outcome with
`passed = false` whose synthesized message, `expected 120 to equal 119`,
contains both operands: `120`, the value `factorial 5` returns, and `119`. -/
theorem failurePath_outcome :
    factorial 5 = 120 ∧
    test.invoke failurePathCase =
      { passed := false, message := "expected 120 to equal 119", label := none } ∧
    (∃ before after : String, (test.invoke failurePathCase).message =
      before ++ toString (factorial 5) ++ after) ∧
    (∃ before after : String, (test.invoke failurePathCase).message =
      before ++ toString (119 : Int) ++ after) := by
  have hval : test.invoke failurePathCase =
      { passed := false, message := "expected 120 to equal 119", label := none } := by
    simp only [test.invoke, failurePathCase, assert.equals, assert.outcome, factorial_five]
    decide
  refine ⟨factorial_five, hval, ⟨"expected ", " to equal 119", ?_⟩,
    ⟨"expected 120 to equal ", "", ?_⟩⟩
  · rw [hval, factorial_five]
    decide
  · rw [hval]
    decide

/-! ## C9: the assertions report the truth value of their relation -/

/-- C9: for all operands `a`, `b` of a type with the relation, and with or
without a label, `equals` passes iff `a = b`, `greaterThan` passes iff `a > b`
and `lessThan_equals` passes iff `a ≤ b`; when the relation is false the result
is an ordinary outcome with `passed = false`. -/
theorem assert_passed_iff {α : Type} [DecidableEq α] [LT α] [LE α]
    [∀ a b : α, Decidable (a < b)] [∀ a b : α, Decidable (a ≤ b)] [ToString α]
    (a b : α) (label : Option String) :
    ((assert.equals a b label).passed = true ↔ a = b) ∧
    ((assert.equals a b label).passed = false ↔ a ≠ b) ∧
    ((assert.greaterThan a b label).passed = true ↔ a > b) ∧
    ((assert.greaterThan a b label).passed = false ↔ ¬ a > b) ∧
    ((assert.lessThan_equals a b label).passed = true ↔ a ≤ b) ∧
    ((assert.lessThan_equals a b label).passed = false ↔ ¬ a ≤ b) := by
  have heq : (assert.equals a b label).passed = decide (a = b) := rfl
  have hgt : (assert.greaterThan a b label).passed = decide (a > b) := rfl
  have hle : (assert.lessThan_equals a b label).passed = decide (a ≤ b) := rfl
  rw [heq, hgt, hle]
  refine ⟨decide_eq_true_iff, ?_, decide_eq_true_iff, ?_, decide_eq_true_iff, ?_⟩
  · exact decide_eq_false_iff_not
  · exact decide_eq_false_iff_not
  · exact decide_eq_false_iff_not

/-! ## C10: the Suite Runner invokes the cases once each, in order -/

theorem runCases_records (cases : List TestCase) :
    ∀ (index : Nat) (s : SuiteRun),
      (test.runCases cases index s).records =
        s.records ++ (cases.enumFrom index).map fun p => (p.1, test.invoke p.2) := by
  induction cases with
  | nil =>
    intro index s
    simp [test.runCases]
  | cons c rest ih =>
    intro index s
    rw [test.runCases, ih (index + 1) (s.record index (test.invoke c))]
    simp [SuiteRun.record, List.enumFrom]

theorem runCases_failedOutcomes (cases : List TestCase) :
    ∀ (index : Nat) (s : SuiteRun),
      (test.runCases cases index s).report.failedOutcomes =
        s.report.failedOutcomes ++
          ((cases.enumFrom index).map fun p => (p.1, test.invoke p.2)).filter
            fun r => !r.2.passed := by
  induction cases with
  | nil =>
    intro index s
    simp [test.runCases]
  | cons c rest ih =>
    intro index s
    rw [test.runCases, ih (index + 1) (s.record index (test.invoke c))]
    by_cases hp : (test.invoke c).passed = true
    · simp [SuiteRun.record, List.enumFrom, hp]
    · simp [SuiteRun.record, List.enumFrom, hp]

theorem run_records (name : String) (cases : List TestCase) :
    (test.run name cases).records = cases.enum.map fun p => (p.1, test.invoke p.2) := by
  unfold test.run
  rw [runCases_records]
  simp [List.enum]

theorem suite_of_name_ne (name : String) (description : Option String)
    (cases : List TestCase) (hname : name ≠ "") :
    test.suite name description cases = Except.ok (test.run name cases) := by
  unfold test.suite
  rw [if_neg hname]

/-- C10: a suite with a well-formed (non-empty) name runs, and its run holds one
record per case given, the record at position `i` being the outcome of invoking
case `i`: every case index occurs exactly once, in declaration order, whether
or not earlier cases failed, and the failing records of the report are those
records in the same order. For the suite `Factorial` of `main` the records are
those of `0! > 0`, `1! = 1`, `5! = 120`, in that order. -/
theorem suite_records_in_declaration_order (name : String) (description : Option String)
    (cases : List TestCase) (hname : name ≠ "") :
    (∃ run : SuiteRun, test.suite name description cases = Except.ok run ∧
      run.records = (cases.enum.map fun p => (p.1, test.invoke p.2)) ∧
      run.records.map Prod.fst = List.range cases.length ∧
      (∀ i : Nat, i < cases.length → (run.records.map Prod.fst).count i = 1) ∧
      run.report.failedOutcomes = run.records.filter fun r => !r.2.passed) ∧
    (∃ run : SuiteRun, main.factorialSuite = Except.ok run ∧
      run.records.map (fun r => (r.1, r.2.label)) =
        [(0, some "0! > 0"), (1, some "1! = 1"), (2, some "5! = 120")]) := by
  have hrec := run_records name cases
  have hidx : (test.run name cases).records.map Prod.fst = List.range cases.length := by
    rw [hrec, List.map_map]
    have hfst : (Prod.fst ∘ fun p : Nat × TestCase => (p.1, test.invoke p.2)) = Prod.fst := by
      funext p
      rfl
    rw [hfst, List.enum_map_fst]
  constructor
  · refine ⟨test.run name cases, suite_of_name_ne name description cases hname,
      hrec, hidx, ?_, ?_⟩
    · intro i hi
      rw [hidx]
      exact List.count_eq_one_of_mem (List.nodup_range _) (List.mem_range.mpr hi)
    · unfold test.run
      rw [runCases_failedOutcomes, runCases_records]
      simp
  · refine ⟨test.run "Factorial"
      [main.factorialCase0, main.factorialCase1, main.factorialCase2],
      suite_of_name_ne _ _ _ (by decide), ?_⟩
    rw [run_records]
    simp [List.enum, List.enumFrom, test.invoke, main.factorialCase0, main.factorialCase1,
      main.factorialCase2, assert.greaterThan, assert.equals, assert.outcome]

/-- Witness of C10 at a suite whose middle case fails: the failing case
`equals(factorial(5), 119)` between the first and the last case of `main`. All
three cases are recorded, in order, and the failing one does not stop the
run. -/
theorem suite_records_in_declaration_order_witness :
    "Factorial" ≠ "" ∧
    ∃ run : SuiteRun,
      test.suite "Factorial" none
        [main.factorialCase0, failurePathCase, main.factorialCase2] = Except.ok run ∧
      run.records =
        ([main.factorialCase0, failurePathCase, main.factorialCase2].enum.map
          fun p => (p.1, test.invoke p.2)) ∧
      run.records.map Prod.fst =
        List.range [main.factorialCase0, failurePathCase, main.factorialCase2].length ∧
      (∀ i : Nat, i < [main.factorialCase0, failurePathCase, main.factorialCase2].length →
        (run.records.map Prod.fst).count i = 1) ∧
      run.report.failedOutcomes = run.records.filter fun r => !r.2.passed :=
  ⟨by decide, (suite_records_in_declaration_order "Factorial" none
    [main.factorialCase0, failurePathCase, main.factorialCase2] (by decide)).1⟩

/-! ## C11: the invariant of the report -/

theorem runCases_total (cases : List TestCase) :
    ∀ (index : Nat) (s : SuiteRun),
      (test.runCases cases index s).report.total = s.report.total + cases.length := by
  induction cases with
  | nil =>
    intro index s
    simp [test.runCases]
  | cons c rest ih =>
    intro index s
    rw [test.runCases, ih (index + 1) (s.record index (test.invoke c))]
    simp only [SuiteRun.record, List.length_cons]
    omega

theorem runCases_suiteName (cases : List TestCase) :
    ∀ (index : Nat) (s : SuiteRun),
      (test.runCases cases index s).report.suiteName = s.report.suiteName := by
  induction cases with
  | nil =>
    intro index s
    simp [test.runCases]
  | cons c rest ih =>
    intro index s
    rw [test.runCases, ih (index + 1) (s.record index (test.invoke c))]
    rfl

theorem record_invariant (s : SuiteRun) (index : Nat) (o : Outcome)
    (h : s.report.total = s.report.passedCount + s.report.failedOutcomes.length) :
    (s.record index o).report.total =
      (s.record index o).report.passedCount + (s.record index o).report.failedOutcomes.length := by
  unfold SuiteRun.record
  by_cases hp : o.passed = true
  · simp only [hp, if_true]
    omega
  · simp only [hp, if_false, Bool.false_eq_true, List.length_append, List.length_singleton]
    omega

theorem runCases_invariant (cases : List TestCase) :
    ∀ (index : Nat) (s : SuiteRun),
      s.report.total = s.report.passedCount + s.report.failedOutcomes.length →
      (test.runCases cases index s).report.total =
        (test.runCases cases index s).report.passedCount +
          (test.runCases cases index s).report.failedOutcomes.length := by
  induction cases with
  | nil =>
    intro index s h
    simpa [test.runCases] using h
  | cons c rest ih =>
    intro index s h
    rw [test.runCases]
    exact ih (index + 1) (s.record index (test.invoke c))
      (record_invariant s index (test.invoke c) h)

theorem run_three (name : String) (c0 c1 c2 : TestCase) :
    test.run name [c0, c1, c2] =
      (((SuiteRun.record
        { records := []
          report := { suiteName := name, total := 0, passedCount := 0, failedOutcomes := [] } }
        0 (test.invoke c0)).record 1 (test.invoke c1)).record 2 (test.invoke c2)) := rfl

theorem invoke_factorialCase0 :
    test.invoke main.factorialCase0 =
      { passed := true, message := "0! > 0", label := some "0! > 0" } := by
  simp [test.invoke, main.factorialCase0, assert.greaterThan, assert.outcome,
    factorial_of_le_one]

theorem invoke_factorialCase2 :
    test.invoke main.factorialCase2 =
      { passed := true, message := "5! = 120", label := some "5! = 120" } := by
  simp [test.invoke, main.factorialCase2, assert.equals, assert.outcome, factorial_five]

theorem invoke_failurePathCase :
    test.invoke failurePathCase =
      { passed := false, message := "expected 120 to equal 119", label := none } := by
  simp only [test.invoke, failurePathCase, assert.equals, assert.outcome, factorial_five]
  decide

/-- C11: the report of every suite that runs (non-empty name) satisfies
`total = passedCount + |failedOutcomes|`, and `total` is the number of declared
cases. In particular a suite of one failing and two passing cases, the failing
one in first, second or third position, reports `total = 3`, `passedCount = 2`
and `failedOutcomes` holding exactly the failing outcome at its original
index. -/
theorem suite_report_invariant (name : String) (description : Option String)
    (cases : List TestCase) (hname : name ≠ "") :
    (∃ run : SuiteRun, test.suite name description cases = Except.ok run ∧
      run.report.total = run.report.passedCount + run.report.failedOutcomes.length ∧
      run.report.total = cases.length ∧
      run.report.suiteName = name) ∧
    (∀ pass1 pass2 fail : TestCase,
      (test.invoke pass1).passed = true → (test.invoke pass2).passed = true →
      (test.invoke fail).passed = false →
      (∃ run : SuiteRun, test.suite name description [fail, pass1, pass2] = Except.ok run ∧
        run.report = { suiteName := name, total := 3, passedCount := 2,
                       failedOutcomes := [(0, test.invoke fail)] }) ∧
      (∃ run : SuiteRun, test.suite name description [pass1, fail, pass2] = Except.ok run ∧
        run.report = { suiteName := name, total := 3, passedCount := 2,
                       failedOutcomes := [(1, test.invoke fail)] }) ∧
      (∃ run : SuiteRun, test.suite name description [pass1, pass2, fail] = Except.ok run ∧
        run.report = { suiteName := name, total := 3, passedCount := 2,
                       failedOutcomes := [(2, test.invoke fail)] })) := by
  constructor
  · refine ⟨test.run name cases, suite_of_name_ne name description cases hname, ?_, ?_, ?_⟩
    · exact runCases_invariant cases 0 _ rfl
    · unfold test.run
      rw [runCases_total]
      simp
    · unfold test.run
      rw [runCases_suiteName]
  · intro pass1 pass2 fail h1 h2 hf
    refine ⟨⟨_, suite_of_name_ne name description _ hname, ?_⟩,
      ⟨_, suite_of_name_ne name description _ hname, ?_⟩,
      ⟨_, suite_of_name_ne name description _ hname, ?_⟩⟩
    · rw [run_three]
      simp [SuiteRun.record, h1, h2, hf]
    · rw [run_three]
      simp [SuiteRun.record, h1, h2, hf]
    · rw [run_three]
      simp [SuiteRun.record, h1, h2, hf]

/-- Witness of C11 at the suite made of the first and the last case of `main`
with the failing case `equals(factorial(5), 119)` between them: the report is
`total = 3`, `passedCount = 2`, and the only failing record is the one of index
`1`. -/
theorem suite_report_invariant_witness :
    "Factorial" ≠ "" ∧
    (∃ run : SuiteRun,
      test.suite "Factorial" none
        [main.factorialCase0, failurePathCase, main.factorialCase2] = Except.ok run ∧
      run.report.total = run.report.passedCount + run.report.failedOutcomes.length ∧
      run.report.total = [main.factorialCase0, failurePathCase, main.factorialCase2].length ∧
      run.report.suiteName = "Factorial") ∧
    (∃ run : SuiteRun,
      test.suite "Factorial" none
        [main.factorialCase0, failurePathCase, main.factorialCase2] = Except.ok run ∧
      run.report = { suiteName := "Factorial", total := 3, passedCount := 2,
                     failedOutcomes := [(1, test.invoke failurePathCase)] }) :=
  ⟨by decide,
    (suite_report_invariant "Factorial" none
      [main.factorialCase0, failurePathCase, main.factorialCase2] (by decide)).1,
    ((suite_report_invariant "Factorial" none [] (by decide)).2
      main.factorialCase0 main.factorialCase2 failurePathCase
      (by rw [invoke_factorialCase0]) (by rw [invoke_factorialCase2])
      (by rw [invoke_failurePathCase])).2.1⟩

/-! ## C12: execution faults -/

theorem fault_message_ne_synthesized (description predicate actual bound : String) :
    "execution fault: " ++ description ≠
      "expected " ++ actual ++ " " ++ predicate ++ " " ++ bound := by
  intro h
  have hd := congrArg String.data h
  simp only [String.data_append] at hd
  simp at hd

theorem invoke_of_fault (c : TestCase) (fault : ExecutionFault)
    (h : c () = Except.error fault) :
    test.invoke c =
      { passed := false, message := "execution fault: " ++ fault.description, label := none } := by
  unfold test.invoke
  rw [h]

theorem fault_outcome_ne_assert_outcome (fault : ExecutionFault) (holds : Bool)
    (predicate actual bound : String) (label : Option String) :
    ({ passed := false, message := "execution fault: " ++ fault.description,
       label := none } : Outcome) ≠ assert.outcome holds predicate actual bound label := by
  intro h
  cases label with
  | some text =>
    have hl := congrArg Outcome.label h
    simp [assert.outcome] at hl
  | none =>
    have hm := congrArg Outcome.message h
    simp only [assert.outcome] at hm
    exact fault_message_ne_synthesized _ _ _ _ hm

/-- C12: a case whose body raises an execution fault is turned by the runner
into a failing outcome, `passed = false` with the message
`execution fault: ...` and no label. That outcome differs from every outcome of
the assertion engine: an unlabelled assertion has a message starting with
`expected`, a labelled one carries its label. The run goes on: the cases before
and after the faulting one are all invoked and recorded in order, and the
faulting case is listed among the failed outcomes at its own index. -/
theorem fault_is_recorded_and_run_continues (name : String) (description : Option String)
    (before after : List TestCase) (faulting : TestCase) (fault : ExecutionFault)
    (hname : name ≠ "") (hfault : faulting () = Except.error fault) :
    (test.invoke faulting).passed = false ∧
    (test.invoke faulting).message = "execution fault: " ++ fault.description ∧
    (∀ (holds : Bool) (predicate actual bound : String) (label : Option String),
      test.invoke faulting ≠ assert.outcome holds predicate actual bound label) ∧
    ∃ run : SuiteRun,
      test.suite name description (before ++ faulting :: after) = Except.ok run ∧
      run.records =
        (before.enum.map fun p => (p.1, test.invoke p.2)) ++
          (before.length, test.invoke faulting) ::
            ((after.enumFrom (before.length + 1)).map fun p => (p.1, test.invoke p.2)) ∧
      run.records.length = before.length + 1 + after.length ∧
      run.report.total = before.length + 1 + after.length ∧
      (before.length, test.invoke faulting) ∈ run.report.failedOutcomes := by
  have hinv := invoke_of_fault faulting fault hfault
  have hrec : (test.run name (before ++ faulting :: after)).records =
      (before.enum.map fun p => (p.1, test.invoke p.2)) ++
        (before.length, test.invoke faulting) ::
          ((after.enumFrom (before.length + 1)).map fun p => (p.1, test.invoke p.2)) := by
    rw [run_records, List.enum_append, List.map_append, List.enumFrom_cons, List.map_cons]
  refine ⟨by rw [hinv], by rw [hinv], ?_, test.run name (before ++ faulting :: after),
    suite_of_name_ne name description _ hname, hrec, ?_, ?_, ?_⟩
  · intro holds predicate actual bound label
    rw [hinv]
    exact fault_outcome_ne_assert_outcome fault holds predicate actual bound label
  · rw [hrec]
    simp [List.enum]
    omega
  · unfold test.run
    rw [runCases_total]
    simp
    omega
  · unfold test.run
    rw [runCases_failedOutcomes, List.enumFrom_append, List.map_append, List.filter_append]
    simp [hinv]

/-- Witness of C12: a case that raises a division fault between the first and
the last case of `main`. -/
theorem fault_is_recorded_and_run_continues_witness :
    "Factorial" ≠ "" ∧
    (fun _ => Except.error { description := "division by zero" } : TestCase) () =
      Except.error { description := "division by zero" } ∧
    ∃ run : SuiteRun,
      test.suite "Factorial" none
        ([main.factorialCase0] ++
          (fun _ => Except.error { description := "division by zero" } : TestCase) ::
            [main.factorialCase2]) = Except.ok run ∧
      run.records =
        ([main.factorialCase0].enum.map fun p => (p.1, test.invoke p.2)) ++
          ([main.factorialCase0].length,
            test.invoke (fun _ => Except.error { description := "division by zero" })) ::
            (([main.factorialCase2].enumFrom ([main.factorialCase0].length + 1)).map
              fun p => (p.1, test.invoke p.2)) ∧
      run.records.length = [main.factorialCase0].length + 1 + [main.factorialCase2].length ∧
      run.report.total = [main.factorialCase0].length + 1 + [main.factorialCase2].length ∧
      ([main.factorialCase0].length,
        test.invoke (fun _ => Except.error { description := "division by zero" })) ∈
          run.report.failedOutcomes :=
  ⟨by decide, rfl,
    (fault_is_recorded_and_run_continues "Factorial" none [main.factorialCase0]
      [main.factorialCase2] (fun _ => Except.error { description := "division by zero" })
      { description := "division by zero" } (by decide) rfl).2.2.2⟩

/-! ## C13: `factorial` is exact precisely up to `12` -/

theorem factorial_product_inRange (m : Int) (h0 : 0 ≤ m) (h12 : m ≤ 12) :
    INT_MIN ≤ m * factorial (m - 1) ∧ m * factorial (m - 1) ≤ INT_MAX := by
  unfold INT_MIN INT_MAX
  rcases eq_or_lt_of_le h0 with hz | hpos
  · subst hz
    simp
  · have hk : m - 1 = (((m - 1).toNat : Nat) : Int) := by omega
    have hm : m = ((((m - 1).toNat + 1 : Nat)) : Int) := by omega
    have hf : factorial (m - 1) = (((m - 1).toNat.factorial : Nat) : Int) := by
      have h := factorial_natCast_of_le_twelve (m - 1).toNat (by omega)
      rwa [← hk] at h
    have hprod : m * factorial (m - 1) = ((((m - 1).toNat + 1).factorial : Nat) : Int) := by
      rw [hf, Nat.factorial_succ]
      push_cast
      congr 1
    have hb : ((m - 1).toNat + 1).factorial ≤ Nat.factorial 12 :=
      Nat.factorial_le (by omega)
    have hv : Nat.factorial 12 = 479001600 := by decide
    rw [hv] at hb
    rw [hprod]
    omega

theorem factorial_thirteen_product : 13 * factorial (13 - 1) = 6227020800 := by
  have h : (13 : Int) - 1 = 12 := by decide
  rw [h, factorial_twelve]
  decide

/-- C13: with 32-bit `int`, for every `n` with `0 ≤ n ≤ 12` the product
`n * factorial (n - 1)`, and every product `m * factorial (m - 1)` computed on
the way down (`1 < m ≤ n`), lies in `[-2^31, 2^31 - 1]`, and `factorial n = n!`.
For `n = 13` the product `13 * 12! = 6227020800` exceeds `2^31 - 1`, and the
value reduced modulo `2^32`, `1932053504`, differs from `13!`. -/
theorem factorial_exact_up_to_twelve (n : Int) (h0 : 0 ≤ n) (h12 : n ≤ 12) :
    (INT_MIN ≤ n * factorial (n - 1) ∧ n * factorial (n - 1) ≤ INT_MAX) ∧
    (∀ m : Int, 1 < m → m ≤ n →
      INT_MIN ≤ m * factorial (m - 1) ∧ m * factorial (m - 1) ≤ INT_MAX) ∧
    factorial n = ((Nat.factorial n.toNat : Nat) : Int) ∧
    (13 * factorial (13 - 1) = 6227020800 ∧ INT_MAX < 13 * factorial (13 - 1) ∧
      factorial 13 = wrap32 (13 * factorial (13 - 1)) ∧
      factorial 13 = 1932053504 ∧
      factorial 13 ≠ ((Nat.factorial 13 : Nat) : Int)) := by
  refine ⟨factorial_product_inRange n h0 h12,
    fun m hm1 hmn => factorial_product_inRange m (by omega) (by omega), ?_, ?_⟩
  · have h := factorial_natCast_of_le_twelve n.toNat (by omega)
    rwa [Int.toNat_of_nonneg h0] at h
  · refine ⟨factorial_thirteen_product, ?_, factorial_of_one_lt 13 (by decide),
      factorial_thirteen, ?_⟩
    · rw [factorial_thirteen_product]
      decide
    · rw [factorial_thirteen]
      have hv : Nat.factorial 13 = 6227020800 := by decide
      rw [hv]
      decide

/-- Witness of C13 at `n = 12`, the last input on which `factorial` is exact. -/
theorem factorial_exact_up_to_twelve_witness :
    (0 : Int) ≤ 12 ∧ (12 : Int) ≤ 12 ∧
    (INT_MIN ≤ 12 * factorial (12 - 1) ∧ 12 * factorial (12 - 1) ≤ INT_MAX) ∧
    factorial 12 = ((Nat.factorial (12 : Int).toNat : Nat) : Int) :=
  ⟨by decide, by decide,
    (factorial_exact_up_to_twelve 12 (by decide) (by decide)).1,
    (factorial_exact_up_to_twelve 12 (by decide) (by decide)).2.2.1⟩

/-! ## C14: no division fault and no counter overflow -/

theorem isPrime_loopDivisors_mem (number : Int) (n : Nat) :
    ∀ i : Int, (number - i).toNat = n →
      ∀ d ∈ isPrime.loopDivisors number i, i ≤ d ∧ d < number := by
  induction n with
  | zero =>
    intro i hn d hd
    rw [isPrime.loopDivisors, if_neg (by omega)] at hd
    simp at hd
  | succ k ih =>
    intro i hn d hd
    have hlt : i < number := by omega
    rw [isPrime.loopDivisors, if_pos hlt] at hd
    by_cases hz : Int.tmod number i = 0
    · rw [if_pos hz, List.mem_singleton] at hd
      subst hd
      exact ⟨le_refl _, hlt⟩
    · rw [if_neg hz, List.mem_cons] at hd
      rcases hd with heq | htail
      · subst heq
        exact ⟨le_refl _, hlt⟩
      · have h := ih (i + 1) (by omega) d htail
        exact ⟨by omega, h.2⟩

theorem isPrime_loop_eq_all_loopDivisors (number : Int) (n : Nat) :
    ∀ i : Int, (number - i).toNat = n →
      isPrime.loop number i =
        (isPrime.loopDivisors number i).all fun d => decide (Int.tmod number d ≠ 0) := by
  induction n with
  | zero =>
    intro i hn
    have hge : ¬ i < number := by omega
    rw [isPrime_loop_of_ge number i hge, isPrime.loopDivisors, if_neg hge]
    rfl
  | succ k ih =>
    intro i hn
    have hlt : i < number := by omega
    rw [isPrime.loopDivisors, if_pos hlt]
    by_cases hz : Int.tmod number i = 0
    · rw [if_pos hz, isPrime_loop_of_dvd number i hlt hz]
      simp [hz]
    · rw [if_neg hz, isPrime_loop_of_not_dvd number i hlt hz, ih (i + 1) (by omega)]
      simp [hz]

theorem isPrime_loopCounters_mem (number : Int) (n : Nat) :
    ∀ i : Int, (number - i).toNat = n → i ≤ number →
      ∀ c ∈ isPrime.loopCounters number i, i ≤ c ∧ c ≤ number := by
  induction n with
  | zero =>
    intro i hn hle c hc
    rw [isPrime.loopCounters, if_neg (by omega), List.mem_singleton] at hc
    subst hc
    exact ⟨le_refl _, hle⟩
  | succ k ih =>
    intro i hn hle c hc
    have hlt : i < number := by omega
    rw [isPrime.loopCounters, if_pos hlt] at hc
    by_cases hz : Int.tmod number i = 0
    · rw [if_pos hz, List.mem_singleton] at hc
      subst hc
      exact ⟨le_refl _, hle⟩
    · rw [if_neg hz, List.mem_cons] at hc
      rcases hc with heq | htail
      · subst heq
        exact ⟨le_refl _, hle⟩
      · have h := ih (i + 1) (by omega) (by omega) c htail
        exact ⟨by omega, h.2⟩

theorem countPrimes_loopCounters_mem (end_ : Int) (n : Nat) :
    ∀ i : Int, (end_ - i).toNat = n →
      ∀ c ∈ countPrimes.loopCounters end_ i, i ≤ c ∧ c ≤ max end_ i := by
  induction n with
  | zero =>
    intro i hn c hc
    rw [countPrimes.loopCounters, if_neg (by omega), List.mem_singleton] at hc
    subst hc
    exact ⟨le_refl _, le_max_right _ _⟩
  | succ k ih =>
    intro i hn c hc
    have hlt : i < end_ := by omega
    rw [countPrimes.loopCounters, if_pos hlt, List.mem_cons] at hc
    rcases hc with heq | htail
    · subst heq
      exact ⟨le_refl _, le_max_right _ _⟩
    · have h := ih (i + 1) (by omega) c htail
      have hmax : max end_ (i + 1) = end_ := max_eq_left (by omega)
      rw [hmax] at h
      exact ⟨by omega, le_trans h.2 (le_max_left _ _)⟩

/-- C14: in every execution of `isPrime(number)`, for every `int` `number`, the
divisor `d` of each evaluated remainder `number % d` satisfies
`2 ≤ d < number`, so it is never zero and no division fault occurs; the result
of `isPrime` is decided by the guard and exactly these remainders. The counter of the loop of
`isPrime` stays in `[2, number]` and the counter of the loop of `countPrimes`
in `[1, max(end, 1)]`, so neither exceeds the largest `int`. -/
theorem no_division_fault (number end_ : Int) (hn : number ≤ INT_MAX) (he : end_ ≤ INT_MAX) :
    (∀ d ∈ isPrime.divisors number, 2 ≤ d ∧ d < number ∧ d ≠ 0) ∧
    isPrime number =
      (decide (1 < number) &&
        (isPrime.divisors number).all fun d => decide (Int.tmod number d ≠ 0)) ∧
    (∀ c ∈ isPrime.counters number, 2 ≤ c ∧ c ≤ number ∧ c ≤ INT_MAX) ∧
    (∀ c ∈ countPrimes.counters end_, 1 ≤ c ∧ c ≤ max end_ 1 ∧ c ≤ INT_MAX) := by
  refine ⟨?_, ?_, ?_, ?_⟩
  · intro d hd
    unfold isPrime.divisors at hd
    by_cases hle : number ≤ 1
    · rw [if_pos hle] at hd
      simp at hd
    · rw [if_neg hle] at hd
      have h := isPrime_loopDivisors_mem number (number - 2).toNat 2 rfl d hd
      exact ⟨h.1, h.2, by omega⟩
  · unfold isPrime isPrime.divisors
    by_cases hle : number ≤ 1
    · rw [if_pos hle, if_pos hle, decide_eq_false (by omega)]
      rfl
    · rw [if_neg hle, if_neg hle, decide_eq_true (by omega), Bool.true_and]
      exact isPrime_loop_eq_all_loopDivisors number (number - 2).toNat 2 rfl
  · intro c hc
    unfold isPrime.counters at hc
    by_cases hle : number ≤ 1
    · rw [if_pos hle] at hc
      simp at hc
    · rw [if_neg hle] at hc
      have h := isPrime_loopCounters_mem number (number - 2).toNat 2 rfl (by omega) c hc
      exact ⟨h.1, h.2, le_trans h.2 hn⟩
  · intro c hc
    have h := countPrimes_loopCounters_mem end_ (end_ - 1).toNat 1 rfl c hc
    refine ⟨h.1, h.2, le_trans h.2 (max_le he ?_)⟩
    unfold INT_MAX
    decide

/-- Witness of C14 at `number = 9` and `end = 10`: `isPrime(9)` evaluates
`9 % 2` and `9 % 3` only. -/
theorem no_division_fault_witness :
    (9 : Int) ≤ INT_MAX ∧ (10 : Int) ≤ INT_MAX ∧
    (∀ d ∈ isPrime.divisors 9, 2 ≤ d ∧ d < 9 ∧ d ≠ 0) ∧
    isPrime 9 =
      (decide ((1 : Int) < 9) && (isPrime.divisors 9).all fun d => decide (Int.tmod 9 d ≠ 0)) ∧
    (∀ c ∈ isPrime.counters 9, 2 ≤ c ∧ c ≤ 9 ∧ c ≤ INT_MAX) ∧
    (∀ c ∈ countPrimes.counters 10, 1 ≤ c ∧ c ≤ max 10 1 ∧ c ≤ INT_MAX) :=
  ⟨by decide, by decide, no_division_fault 9 10 (by decide) (by decide)⟩

/-! ## C15: `countPrimes` grows by at most one per step -/

theorem primesBelow_succ (n : Nat) (h : 1 ≤ n) :
    primesBelow (n + 1) = primesBelow n + (if Nat.Prime n then 1 else 0) := by
  unfold primesBelow
  rw [Nat.Ico_succ_right_eq_insert_Ico h, Finset.filter_insert]
  by_cases hp : Nat.Prime n
  · rw [if_pos hp, if_pos hp, Finset.card_insert_of_not_mem (by simp)]
  · rw [if_neg hp, if_neg hp]
    rfl

theorem primesBelow_mono (m n : Nat) (h : m ≤ n) : primesBelow m ≤ primesBelow n := by
  unfold primesBelow
  apply Finset.card_le_card
  apply Finset.filter_subset_filter
  exact Finset.Ico_subset_Ico_right h

theorem primesBelow_of_le_two (n : Nat) (h : n ≤ 2) : primesBelow n = 0 := by
  unfold primesBelow
  rw [Finset.card_eq_zero]
  apply Finset.filter_eq_empty_iff.mpr
  intro k hk hp
  simp only [Finset.mem_Ico] at hk
  have h2 : 2 ≤ k := hp.two_le
  omega

theorem countPrimes_succ (end_ : Int) :
    countPrimes (end_ + 1) = countPrimes end_ + (if isPrime end_ then 1 else 0) := by
  rw [countPrimes_eq_primesBelow, countPrimes_eq_primesBelow]
  by_cases h : 1 ≤ end_
  · have hn : (end_ + 1).toNat = end_.toNat + 1 := by omega
    have hcast : end_ = ((end_.toNat : Nat) : Int) := by omega
    rw [hn, primesBelow_succ end_.toNat (by omega)]
    by_cases hp : Nat.Prime end_.toNat
    · have hi : isPrime end_ = true := by
        rw [hcast]
        exact (isPrime_natCast_iff end_.toNat).mpr hp
      rw [if_pos hp, if_pos hi]
      push_cast
      rfl
    · have hi : ¬ isPrime end_ = true := by
        rw [hcast]
        exact fun hc => hp ((isPrime_natCast_iff end_.toNat).mp hc)
      rw [if_neg hp, if_neg hi]
      push_cast
      rfl
  · rw [isPrime_of_le_one end_ (by omega), primesBelow_of_le_two _ (by omega),
      primesBelow_of_le_two _ (by omega)]
    rfl

theorem countPrimes_mono (a b : Int) (h : a ≤ b) : countPrimes a ≤ countPrimes b := by
  rw [countPrimes_eq_primesBelow, countPrimes_eq_primesBelow]
  have hnat : a.toNat ≤ b.toNat := Int.toNat_le_toNat h
  exact_mod_cast primesBelow_mono a.toNat b.toNat hnat

/-- C15: for every integer `end_`, so for every `int` below the largest one,
`countPrimes (end_ + 1) = countPrimes end_ + 1` when `isPrime end_` and
`countPrimes (end_ + 1) = countPrimes end_` otherwise; and `countPrimes` is
monotone, `countPrimes a ≤ countPrimes b` whenever `a ≤ b`. -/
theorem countPrimes_step_and_mono (end_ a b : Int) (hab : a ≤ b) :
    countPrimes (end_ + 1) = countPrimes end_ + (if isPrime end_ then 1 else 0) ∧
    countPrimes end_ ≤ countPrimes (end_ + 1) ∧
    countPrimes (end_ + 1) ≤ countPrimes end_ + 1 ∧
    countPrimes a ≤ countPrimes b := by
  have hstep := countPrimes_succ end_
  refine ⟨hstep, ?_, ?_, countPrimes_mono a b hab⟩
  · rw [hstep]
    split <;> omega
  · rw [hstep]
    split <;> omega

/-- Witness of C15 at `end_ = 7`, a prime, and at the pair `3 ≤ 10`. -/
theorem countPrimes_step_and_mono_witness :
    (3 : Int) ≤ 10 ∧
    countPrimes (7 + 1) = countPrimes 7 + (if isPrime 7 then 1 else 0) ∧
    countPrimes 7 ≤ countPrimes (7 + 1) ∧
    countPrimes (7 + 1) ≤ countPrimes 7 + 1 ∧
    countPrimes 3 ≤ countPrimes 10 :=
  ⟨by decide, countPrimes_step_and_mono 7 3 10 (by decide)⟩

/-! ## C16: degenerate inputs -/

theorem countPrimes_of_le_two (end_ : Int) (h : end_ ≤ 2) : countPrimes end_ = 0 := by
  rw [countPrimes_eq_primesBelow, primesBelow_of_le_two _ (by omega)]
  rfl

/-- C16: for every `int` `n ≤ 1`, zero and the negative ones included,
`factorial n = 1` and `isPrime n = false`; for every `int` `end_ ≤ 2`,
`countPrimes end_ = 0`. In particular `isPrime 1 = false` and
`countPrimes 2 = 0`: the loop of `countPrimes` starts at `1`, but `1` is never
counted as a prime. -/
theorem degenerate_inputs (n end_ : Int) (hn : n ≤ 1) (hend : end_ ≤ 2) :
    factorial n = 1 ∧ isPrime n = false ∧ countPrimes end_ = 0 ∧
    (isPrime 1 = false ∧ countPrimes.counters 2 = [1, 2] ∧ countPrimes 2 = 0) := by
  refine ⟨factorial_of_le_one n hn, isPrime_of_le_one n hn, countPrimes_of_le_two end_ hend,
    isPrime_of_le_one 1 (by decide), ?_, countPrimes_of_le_two 2 (by decide)⟩
  unfold countPrimes.counters
  rw [countPrimes.loopCounters, if_pos (by decide), countPrimes.loopCounters,
    if_neg (by decide)]
  rfl

/-- Witness of C16 at the negative input `n = -4` and at `end_ = 2`. -/
theorem degenerate_inputs_witness :
    (-4 : Int) ≤ 1 ∧ (2 : Int) ≤ 2 ∧
    factorial (-4) = 1 ∧ isPrime (-4) = false ∧ countPrimes 2 = 0 ∧
    (isPrime 1 = false ∧ countPrimes.counters 2 = [1, 2] ∧ countPrimes 2 = 0) :=
  ⟨by decide, by decide, degenerate_inputs (-4) 2 (by decide) (by decide)⟩
